import Mathlib

/-!
Shallow embedding of the powerfox-api backup script (`src/backup.ipynb`).

The notebook defines three functions and one date-range computation:

* `backup_date(day)`: a bounded retry loop around the API call
  `api.get_historical_data_raw(...)`; on an exception it logs, increments the
  retry counter and sleeps `BACKOFF * retries` seconds; after `RETRIES` failed
  attempts it logs a failure line and falls through, returning `None`.
* `append_to_json_file(batch, file)`: opens the file in append mode and writes
  each batch entry as `json.dumps({"day": day.isoformat(), "data": data})`
  followed by a newline, in the batch's iteration order.
* `backup(date_range, file)`: for each day, fetches via `backup_date`, skips
  `None` results, inserts the result into a dict batch, flushes the batch to
  the file when `len(batch) >= BATCH_APPEND` and clears it, and finally
  flushes any non-empty remainder.
* `dates = [start + timedelta(days=day) for day in range((end - start).days)]`.

The embedding models the external API by an oracle `fetch : Day → Nat → Option JSON`
giving the outcome of each attempt (a `none` stands for a raised exception),
days by their proleptic Gregorian ordinal (Python's `date.toordinal`), the
opaque JSON payload by its serialized text, the output file by its list of
written chunks, and all side effects (API calls, log lines, sleeps, file
open/write/close) by an explicit event trace.
-/

/-- Opaque daily payload, modeled by its serialized JSON text (the core never
inspects it). -/
abbrev JSON := String

/-- A calendar day, as its proleptic Gregorian ordinal (Python `date.toordinal`:
0001-01-01 has ordinal 1; `d2 - d1` in days equals the ordinal difference, and
`d + timedelta(days=k)` is ordinal addition). -/
abbrev Day := Int

/-- The notebook's configuration constants `RETRIES`, `BACKOFF`, `BATCH_APPEND`. -/
structure Config where
  RETRIES : Nat
  BACKOFF : Nat
  BATCH_APPEND : Nat
  deriving DecidableEq, Repr

/-- The constants as set in the notebook: `BATCH_APPEND = 15`, `RETRIES = 10`,
`BACKOFF = 2`. -/
def notebookConfig : Config := ⟨10, 2, 15⟩

/-- Observable side effects of a run, in order of occurrence. -/
inductive Event where
  | fetchAttempt (day : Day) (attempt : Nat)
  | logError (day : Day) (attempt : Nat)
  | sleep (duration : Nat)
  | logFailure (day : Day)
  | openFile
  | write (chunk : String)
  | closeFile
  deriving DecidableEq, Repr

/-- The `while retries < RETRIES` loop of `backup_date`, with
`fuel = RETRIES - retries` as the structural measure (the counter increments by
one per iteration, so the pair `(retries, fuel)` walks `(0, RETRIES)`,
`(1, RETRIES-1)`, ...).  Each iteration calls the API (`fetch retries`); on
success it returns the payload, on an exception it logs the error, increments
the counter and sleeps `BACKOFF * retries` seconds with the incremented
counter; when the loop condition fails the failure line is logged and `None`
falls through. -/
def backupDateGo (fetch : Nat → Option JSON) (day : Day) (BACKOFF : Nat) :
    Nat → Nat → Option JSON × List Event
  | _retries, 0 => (none, [Event.logFailure day])
  | retries, fuel+1 =>
    match fetch retries with
    | some h => (some h, [Event.fetchAttempt day retries])
    | none =>
      let r := backupDateGo fetch day BACKOFF (retries+1) fuel
      (r.1, Event.fetchAttempt day retries :: Event.logError day retries ::
        Event.sleep (BACKOFF * (retries+1)) :: r.2)

/-- `backup_date(day)`: run the retry loop from `retries = 0`. -/
def backup_date (cfg : Config) (fetch : Nat → Option JSON) (day : Day) :
    Option JSON × List Event :=
  backupDateGo fetch day cfg.BACKOFF 0 cfg.RETRIES

/-- Civil (year, month, day-of-month) from a proleptic Gregorian ordinal, for
ordinals ≥ 1 (Python's supported date range).  Standard days-to-civil
computation over 400-year eras; `o + 305` shifts ordinal 1 (0001-01-01) to
day 306 of the era beginning 0000-03-01. -/
def civilFromOrdinal (o : Day) : Int × Nat × Nat :=
  let z : Nat := (o + 305).toNat
  let era : Nat := z / 146097
  let doe : Nat := z % 146097
  let yoe : Nat := (doe - doe/1460 + doe/36524 - doe/146096) / 365
  let doy : Nat := doe - (365*yoe + yoe/4 - yoe/100)
  let mp : Nat := (5*doy + 2)/153
  let d : Nat := doy - (153*mp+2)/5 + 1
  let m : Nat := if mp < 10 then mp+3 else mp-9
  (((yoe + era*400 : Nat) : Int) + (if m ≤ 2 then 1 else 0), m, d)

/-- Left-pad a number with zeros to the given width. -/
def padNum (width n : Nat) : String :=
  String.mk (List.replicate (width - (toString n).length) '0') ++ toString n

/-- Python `date.isoformat()`: `YYYY-MM-DD`, zero-padded. -/
def isoformat (o : Day) : String :=
  padNum 4 (civilFromOrdinal o).1.toNat ++ "-" ++
    padNum 2 (civilFromOrdinal o).2.1 ++ "-" ++ padNum 2 (civilFromOrdinal o).2.2

/-- `json.dumps({"day": dayIso, "data": data})` with Python's default
separators, the day rendered as a JSON string and the payload spliced in as
its serialized text. -/
def dumps_record (dayIso : String) (data : JSON) : String :=
  "\x7b\"day\": \"" ++ dayIso ++ "\", \"data\": " ++ data ++ "\x7d"

/-- The one chunk `f.write(...)` emits for a batch entry: the serialized record
plus the appended `"\n"`. -/
def serializeEntry (p : Day × JSON) : String :=
  dumps_record (isoformat p.1) p.2 ++ "\n"

/-- `append_to_json_file(batch, file=file)`: open the file in append mode,
write one serialized record per batch entry in iteration order, close the
file.  Returns the new file contents and the emitted events. -/
def append_to_json_file (batch : List (Day × JSON)) (file : List String) :
    List String × List Event :=
  (file ++ batch.map serializeEntry,
   Event.openFile :: (batch.map (fun p => Event.write (serializeEntry p)) ++ [Event.closeFile]))

/-- Python dict assignment `batch[day] = data` on an insertion-ordered
association list: replace in place if the key is present, else append. -/
def dictInsert (k : Day) (v : JSON) : List (Day × JSON) → List (Day × JSON)
  | [] => [(k, v)]
  | (k', v') :: rest =>
    if k' = k then (k, v) :: rest else (k', v') :: dictInsert k v rest

/-- State after the driver loop of `backup` has consumed its days: the live
batch, the file contents, the batches flushed so far (in order), and the event
trace. -/
structure GoResult where
  batch : List (Day × JSON)
  file : List String
  flushes : List (List (Day × JSON))
  events : List Event
  deriving DecidableEq, Repr

/-- The `for day in date_range` loop of `backup`: fetch the day, skip a `None`
result, insert into the batch, and flush and clear the batch as soon as
`len(batch) >= BATCH_APPEND`. -/
def backupGo (cfg : Config) (fetch : Day → Nat → Option JSON) :
    List Day → List (Day × JSON) → List String → GoResult
  | [], batch, file => ⟨batch, file, [], []⟩
  | day :: rest, batch, file =>
    let dres := backup_date cfg (fetch day) day
    match dres.1 with
    | none =>
      let r := backupGo cfg fetch rest batch file
      ⟨r.batch, r.file, r.flushes, dres.2 ++ r.events⟩
    | some data =>
      let batch' := dictInsert day data batch
      if cfg.BATCH_APPEND ≤ batch'.length then
        let fres := append_to_json_file batch' file
        let r := backupGo cfg fetch rest [] fres.1
        ⟨r.batch, r.file, batch' :: r.flushes, dres.2 ++ fres.2 ++ r.events⟩
      else
        let r := backupGo cfg fetch rest batch' file
        ⟨r.batch, r.file, r.flushes, dres.2 ++ r.events⟩

/-- Outcome of a whole `backup` run. -/
structure RunResult where
  file : List String
  flushes : List (List (Day × JSON))
  events : List Event
  deriving DecidableEq, Repr

/-- `backup(date_range, file=file)`: run the day loop starting from an empty
batch, then dump the remaining batch if it is non-empty. -/
def backup (cfg : Config) (fetch : Day → Nat → Option JSON) (date_range : List Day)
    (file0 : List String) : RunResult :=
  let r := backupGo cfg fetch date_range [] file0
  if 0 < r.batch.length then
    let fres := append_to_json_file r.batch r.file
    ⟨fres.1, r.flushes ++ [r.batch], r.events ++ fres.2⟩
  else
    ⟨r.file, r.flushes, r.events⟩

/-- `dates = [start + timedelta(days=day) for day in range((end - start).days)]`
(the second argument embeds the notebook's `end`, which is a reserved word
here). -/
def dates (start stop : Day) : List Day :=
  (List.range (stop - start).toNat).map (fun (day : Nat) => start + (day : Int))

/-- The sleep durations occurring in a trace, in order. -/
def sleepsOf : List Event → List Nat
  | [] => []
  | Event.sleep n :: rest => n :: sleepsOf rest
  | _ :: rest => sleepsOf rest

/-- The (day, payload) pairs of the days whose fetch succeeds, in range order. -/
def successes (cfg : Config) (fetch : Day → Nat → Option JSON) (days : List Day) :
    List (Day × JSON) :=
  days.filterMap (fun d => ((backup_date cfg (fetch d) d).1).map (fun a => (d, a)))

/-- Recognizes the event marking the first API attempt for a given day, i.e.
one invocation of the day fetcher on that day. -/
def isFirstAttemptFor (day : Day) : Event → Bool
  | Event.fetchAttempt d k => d == day && k == 0
  | _ => false

/-- The key list of an insertion-ordered dict. -/
def keys (l : List (Day × JSON)) : List Day := l.map Prod.fst

/-- Recognizes any API attempt event. -/
def isAttempt : Event → Bool
  | Event.fetchAttempt _ _ => true
  | _ => false

/-- The trace `backup_date` produces when every attempt raises, starting from
counter value `r` with `fuel` loop iterations left. -/
def failTrace (day : Day) (B : Nat) : Nat → Nat → List Event
  | _r, 0 => [Event.logFailure day]
  | r, fuel+1 => Event.fetchAttempt day r :: Event.logError day r ::
      Event.sleep (B * (r+1)) :: failTrace day B (r+1) fuel

/-! ### Lemmas about the retry loop `backup_date` -/

theorem backupDateGo_all_fail (fetch : Nat → Option JSON) (day : Day) (B : Nat)
    (hf : ∀ k, fetch k = none) :
    ∀ fuel r, backupDateGo fetch day B r fuel = (none, failTrace day B r fuel) := by
  intro fuel
  induction fuel with
  | zero => intro r; rfl
  | succ n ih => intro r; simp [backupDateGo, hf r, failTrace, ih (r+1)]

theorem sleepsOf_failTrace (day : Day) (B : Nat) :
    ∀ fuel r, sleepsOf (failTrace day B r fuel)
      = (List.range fuel).map (fun i => B * (r + i + 1)) := by
  intro fuel
  induction fuel with
  | zero => intro r; rfl
  | succ n ih =>
    intro r
    rw [List.range_succ_eq_map]
    have h2 : List.map ((fun i => B * (r + i + 1)) ∘ Nat.succ) (List.range n)
        = List.map (fun i => B * (r + 1 + i + 1)) (List.range n) :=
      List.map_congr_left (fun i _ => by simp only [Function.comp_apply, Nat.succ_eq_add_one]; ring)
    simp [failTrace, sleepsOf, ih (r+1), h2]

theorem failTrace_tail (day : Day) (B : Nat) :
    ∀ fuel r, 1 ≤ fuel → ∃ pre, failTrace day B r fuel
      = pre ++ [Event.sleep (B * (r + fuel)), Event.logFailure day] := by
  intro fuel
  induction fuel with
  | zero => intro r h; omega
  | succ n ih =>
    intro r _
    rcases Nat.eq_zero_or_pos n with hn | hn
    · subst hn
      exact ⟨[Event.fetchAttempt day r, Event.logError day r], by simp [failTrace]⟩
    · obtain ⟨pre, hpre⟩ := ih (r+1) hn
      refine ⟨Event.fetchAttempt day r :: Event.logError day r ::
        Event.sleep (B * (r+1)) :: pre, ?_⟩
      simp only [failTrace, hpre]
      have : r + 1 + n = r + (n + 1) := by omega
      simp [this]

theorem failTrace_getLast (day : Day) (B : Nat) :
    ∀ fuel r, (failTrace day B r fuel).getLast? = some (Event.logFailure day) := by
  intro fuel r
  rcases Nat.eq_zero_or_pos fuel with h | h
  · subst h; rfl
  · obtain ⟨pre, hpre⟩ := failTrace_tail day B fuel r h
    rw [hpre, show pre ++ [Event.sleep (B * (r + fuel)), Event.logFailure day]
      = (pre ++ [Event.sleep (B * (r + fuel))]) ++ [Event.logFailure day] by simp]
    exact List.getLast?_concat _

theorem backupDateGo_attempts_le (fetch : Nat → Option JSON) (day : Day) (B : Nat) :
    ∀ fuel r, (backupDateGo fetch day B r fuel).2.countP isAttempt ≤ fuel := by
  intro fuel
  induction fuel with
  | zero => intro r; simp [backupDateGo, List.countP_cons, isAttempt]
  | succ n ih =>
    intro r
    cases h : fetch r with
    | some v => simp [backupDateGo, h, List.countP_cons, isAttempt]
    | none =>
      simp [backupDateGo, h, List.countP_cons, isAttempt]
      have := ih (r+1)
      omega

theorem backupDateGo_firstAttempt (fetch : Nat → Option JSON) (day : Day) (B : Nat)
    (x : Day) :
    ∀ fuel r, (backupDateGo fetch day B r fuel).2.countP (isFirstAttemptFor x)
      = if day = x ∧ r = 0 ∧ 1 ≤ fuel then 1 else 0 := by
  intro fuel
  induction fuel with
  | zero => intro r; simp [backupDateGo, List.countP_cons, isFirstAttemptFor]
  | succ n ih =>
    intro r
    cases h : fetch r with
    | some v =>
      simp only [backupDateGo, h, List.countP_cons, List.countP_nil, isFirstAttemptFor]
      by_cases hdx : day = x <;> by_cases hr : r = 0 <;> simp [hdx, hr]
    | none =>
      simp only [backupDateGo, h, List.countP_cons, isFirstAttemptFor, ih (r+1)]
      by_cases hdx : day = x <;> by_cases hr : r = 0 <;> simp [hdx, hr]

theorem backup_date_success0 (cfg : Config) (fetch : Nat → Option JSON) (day : Day)
    (v : JSON) (hR : 1 ≤ cfg.RETRIES) (h0 : fetch 0 = some v) :
    backup_date cfg fetch day = (some v, [Event.fetchAttempt day 0]) := by
  unfold backup_date
  obtain ⟨n, hn⟩ : ∃ n, cfg.RETRIES = n + 1 := ⟨cfg.RETRIES - 1, by omega⟩
  rw [hn]
  simp [backupDateGo, h0]

theorem backupDateGo_sleeps_linear (fetch : Nat → Option JSON) (day : Day) (B : Nat) :
    ∀ fuel r, ∃ k ≤ fuel, sleepsOf (backupDateGo fetch day B r fuel).2
      = (List.range k).map (fun i => B * (r + i + 1)) := by
  intro fuel
  induction fuel with
  | zero => intro r; exact ⟨0, le_rfl, rfl⟩
  | succ n ih =>
    intro r
    cases h : fetch r with
    | some v => exact ⟨0, Nat.zero_le _, by simp [backupDateGo, h, sleepsOf]⟩
    | none =>
      obtain ⟨k, hk, hs⟩ := ih (r+1)
      refine ⟨k + 1, by omega, ?_⟩
      rw [List.range_succ_eq_map]
      have h2 : List.map ((fun i => B * (r + i + 1)) ∘ Nat.succ) (List.range k)
          = List.map (fun i => B * (r + 1 + i + 1)) (List.range k) :=
        List.map_congr_left (fun i _ => by simp only [Function.comp_apply, Nat.succ_eq_add_one]; ring)
      simp [backupDateGo, h, sleepsOf, hs, h2]

/-! ### Lemmas about the driver loop `backupGo` -/

theorem keys_nil : keys [] = [] := rfl

theorem keys_cons (p : Day × JSON) (l : List (Day × JSON)) :
    keys (p :: l) = p.1 :: keys l := rfl

theorem keys_append (l₁ l₂ : List (Day × JSON)) :
    keys (l₁ ++ l₂) = keys l₁ ++ keys l₂ := by
  simp [keys]

theorem dictInsert_append (k : Day) (v : JSON) :
    ∀ b : List (Day × JSON), k ∉ keys b → dictInsert k v b = b ++ [(k, v)] := by
  intro b
  induction b with
  | nil => intro _; rfl
  | cons p rest ih =>
    intro hk
    obtain ⟨k', v'⟩ := p
    rw [keys_cons, List.mem_cons, not_or] at hk
    rw [dictInsert, if_neg (fun h => hk.1 h.symm), ih hk.2, List.cons_append]

theorem successes_nil (cfg : Config) (fetch : Day → Nat → Option JSON) :
    successes cfg fetch [] = [] := rfl

theorem successes_cons_none (cfg : Config) (fetch : Day → Nat → Option JSON)
    (day : Day) (rest : List Day) (h : (backup_date cfg (fetch day) day).1 = none) :
    successes cfg fetch (day :: rest) = successes cfg fetch rest := by
  simp [successes, List.filterMap_cons, h]

theorem successes_cons_some (cfg : Config) (fetch : Day → Nat → Option JSON)
    (day : Day) (rest : List Day) (a : JSON)
    (h : (backup_date cfg (fetch day) day).1 = some a) :
    successes cfg fetch (day :: rest) = (day, a) :: successes cfg fetch rest := by
  simp [successes, List.filterMap_cons, h]

theorem backupGo_nil (cfg : Config) (fetch : Day → Nat → Option JSON)
    (b : List (Day × JSON)) (f : List String) :
    backupGo cfg fetch [] b f = ⟨b, f, [], []⟩ := rfl

theorem backupGo_cons_none (cfg : Config) (fetch : Day → Nat → Option JSON)
    (day : Day) (rest : List Day) (b : List (Day × JSON)) (f : List String)
    (h : (backup_date cfg (fetch day) day).1 = none) :
    backupGo cfg fetch (day :: rest) b f =
      ⟨(backupGo cfg fetch rest b f).batch, (backupGo cfg fetch rest b f).file,
       (backupGo cfg fetch rest b f).flushes,
       (backup_date cfg (fetch day) day).2 ++ (backupGo cfg fetch rest b f).events⟩ := by
  simp [backupGo, h]

theorem backupGo_cons_flush (cfg : Config) (fetch : Day → Nat → Option JSON)
    (day : Day) (rest : List Day) (b : List (Day × JSON)) (f : List String) (a : JSON)
    (h : (backup_date cfg (fetch day) day).1 = some a)
    (hT : cfg.BATCH_APPEND ≤ (dictInsert day a b).length) :
    backupGo cfg fetch (day :: rest) b f =
      ⟨(backupGo cfg fetch rest [] (append_to_json_file (dictInsert day a b) f).1).batch,
       (backupGo cfg fetch rest [] (append_to_json_file (dictInsert day a b) f).1).file,
       dictInsert day a b ::
         (backupGo cfg fetch rest [] (append_to_json_file (dictInsert day a b) f).1).flushes,
       (backup_date cfg (fetch day) day).2 ++ (append_to_json_file (dictInsert day a b) f).2 ++
         (backupGo cfg fetch rest [] (append_to_json_file (dictInsert day a b) f).1).events⟩ := by
  simp [backupGo, h, hT]

theorem backupGo_cons_noflush (cfg : Config) (fetch : Day → Nat → Option JSON)
    (day : Day) (rest : List Day) (b : List (Day × JSON)) (f : List String) (a : JSON)
    (h : (backup_date cfg (fetch day) day).1 = some a)
    (hT : ¬ cfg.BATCH_APPEND ≤ (dictInsert day a b).length) :
    backupGo cfg fetch (day :: rest) b f =
      ⟨(backupGo cfg fetch rest (dictInsert day a b) f).batch,
       (backupGo cfg fetch rest (dictInsert day a b) f).file,
       (backupGo cfg fetch rest (dictInsert day a b) f).flushes,
       (backup_date cfg (fetch day) day).2 ++
         (backupGo cfg fetch rest (dictInsert day a b) f).events⟩ := by
  simp [backupGo, h, hT]

theorem backupGo_flatten (cfg : Config) (fetch : Day → Nat → Option JSON) :
    ∀ (days : List Day) (b : List (Day × JSON)) (f : List String),
      days.Nodup → (∀ d ∈ days, d ∉ keys b) →
      (backupGo cfg fetch days b f).flushes.flatten ++ (backupGo cfg fetch days b f).batch
        = b ++ successes cfg fetch days := by
  intro days
  induction days with
  | nil => intro b f _ _; simp [backupGo_nil, successes_nil]
  | cons day rest ih =>
    intro b f hnd hdisj
    have hndr : rest.Nodup := (List.nodup_cons.mp hnd).2
    have hdayr : day ∉ rest := (List.nodup_cons.mp hnd).1
    have hdisjr : ∀ d ∈ rest, d ∉ keys b :=
      fun d hd => hdisj d (List.mem_cons_of_mem _ hd)
    cases hfd : (backup_date cfg (fetch day) day).1 with
    | none =>
      rw [backupGo_cons_none cfg fetch day rest b f hfd,
        successes_cons_none cfg fetch day rest hfd]
      exact ih b f hndr hdisjr
    | some a =>
      have hins : dictInsert day a b = b ++ [(day, a)] :=
        dictInsert_append day a b (hdisj day (List.mem_cons_self _ _))
      rw [successes_cons_some cfg fetch day rest a hfd]
      by_cases hT : cfg.BATCH_APPEND ≤ (dictInsert day a b).length
      · rw [backupGo_cons_flush cfg fetch day rest b f a hfd hT]
        have := ih [] (append_to_json_file (dictInsert day a b) f).1 hndr
          (fun d _ => by simp [keys])
        rw [List.flatten_cons, List.append_assoc, this, hins]
        simp
      · rw [backupGo_cons_noflush cfg fetch day rest b f a hfd hT]
        have hdisj' : ∀ d ∈ rest, d ∉ keys (dictInsert day a b) := by
          intro d hd
          rw [hins, keys_append, keys_cons, keys_nil]
          simp only [List.mem_append, List.mem_singleton, not_or]
          refine ⟨hdisjr d hd, ?_⟩
          rintro rfl
          exact hdayr hd
        have := ih (dictInsert day a b) f hndr hdisj'
        rw [this, hins]
        simp

theorem backupGo_file (cfg : Config) (fetch : Day → Nat → Option JSON) :
    ∀ (days : List Day) (b : List (Day × JSON)) (f : List String),
      (backupGo cfg fetch days b f).file
        = f ++ ((backupGo cfg fetch days b f).flushes.flatten).map serializeEntry := by
  intro days
  induction days with
  | nil => intro b f; simp [backupGo_nil]
  | cons day rest ih =>
    intro b f
    cases hfd : (backup_date cfg (fetch day) day).1 with
    | none =>
      rw [backupGo_cons_none cfg fetch day rest b f hfd]
      exact ih b f
    | some a =>
      by_cases hT : cfg.BATCH_APPEND ≤ (dictInsert day a b).length
      · rw [backupGo_cons_flush cfg fetch day rest b f a hfd hT]
        rw [ih [] (append_to_json_file (dictInsert day a b) f).1]
        simp [append_to_json_file, List.flatten_cons]
      · rw [backupGo_cons_noflush cfg fetch day rest b f a hfd hT]
        exact ih (dictInsert day a b) f

theorem backupGo_batch_bound (cfg : Config) (fetch : Day → Nat → Option JSON) :
    ∀ (days : List Day) (b : List (Day × JSON)) (f : List String),
      days.Nodup → (∀ d ∈ days, d ∉ keys b) → b.length < cfg.BATCH_APPEND →
      (backupGo cfg fetch days b f).batch.length < cfg.BATCH_APPEND
        ∧ ∀ fl ∈ (backupGo cfg fetch days b f).flushes, fl.length = cfg.BATCH_APPEND := by
  intro days
  induction days with
  | nil => intro b f _ _ hb; simpa [backupGo_nil] using hb
  | cons day rest ih =>
    intro b f hnd hdisj hb
    have hndr : rest.Nodup := (List.nodup_cons.mp hnd).2
    have hdayr : day ∉ rest := (List.nodup_cons.mp hnd).1
    have hdisjr : ∀ d ∈ rest, d ∉ keys b :=
      fun d hd => hdisj d (List.mem_cons_of_mem _ hd)
    cases hfd : (backup_date cfg (fetch day) day).1 with
    | none =>
      rw [backupGo_cons_none cfg fetch day rest b f hfd]
      exact ih b f hndr hdisjr hb
    | some a =>
      have hins : dictInsert day a b = b ++ [(day, a)] :=
        dictInsert_append day a b (hdisj day (List.mem_cons_self _ _))
      have hlen : (dictInsert day a b).length = b.length + 1 := by simp [hins]
      by_cases hT : cfg.BATCH_APPEND ≤ (dictInsert day a b).length
      · have hexact : (dictInsert day a b).length = cfg.BATCH_APPEND := by omega
        rw [backupGo_cons_flush cfg fetch day rest b f a hfd hT]
        have := ih [] (append_to_json_file (dictInsert day a b) f).1 hndr
          (fun d _ => by simp [keys]) (by simp only [List.length_nil]; omega)
        refine ⟨this.1, ?_⟩
        intro fl hfl
        rcases List.mem_cons.mp hfl with h | h
        · rw [h, hexact]
        · exact this.2 fl h
      · rw [backupGo_cons_noflush cfg fetch day rest b f a hfd hT]
        have hdisj' : ∀ d ∈ rest, d ∉ keys (dictInsert day a b) := by
          intro d hd
          rw [hins, keys_append, keys_cons, keys_nil]
          simp only [List.mem_append, List.mem_singleton, not_or]
          refine ⟨hdisjr d hd, ?_⟩
          rintro rfl
          exact hdayr hd
        exact ih (dictInsert day a b) f hndr hdisj' (by omega)

theorem backupGo_append (cfg : Config) (fetch : Day → Nat → Option JSON) :
    ∀ (p q : List Day) (b : List (Day × JSON)) (f : List String),
      backupGo cfg fetch (p ++ q) b f =
        ⟨(backupGo cfg fetch q (backupGo cfg fetch p b f).batch
            (backupGo cfg fetch p b f).file).batch,
         (backupGo cfg fetch q (backupGo cfg fetch p b f).batch
            (backupGo cfg fetch p b f).file).file,
         (backupGo cfg fetch p b f).flushes ++
           (backupGo cfg fetch q (backupGo cfg fetch p b f).batch
              (backupGo cfg fetch p b f).file).flushes,
         (backupGo cfg fetch p b f).events ++
           (backupGo cfg fetch q (backupGo cfg fetch p b f).batch
              (backupGo cfg fetch p b f).file).events⟩ := by
  intro p
  induction p with
  | nil => intro q b f; simp [backupGo_nil]
  | cons day rest ih =>
    intro q b f
    cases hfd : (backup_date cfg (fetch day) day).1 with
    | none =>
      rw [List.cons_append, backupGo_cons_none cfg fetch day (rest ++ q) b f hfd,
        backupGo_cons_none cfg fetch day rest b f hfd]
      simp only [ih q b f, List.append_assoc]
    | some a =>
      by_cases hT : cfg.BATCH_APPEND ≤ (dictInsert day a b).length
      · rw [List.cons_append, backupGo_cons_flush cfg fetch day (rest ++ q) b f a hfd hT,
          backupGo_cons_flush cfg fetch day rest b f a hfd hT]
        simp only [ih q [] (append_to_json_file (dictInsert day a b) f).1,
          List.cons_append, List.append_assoc]
      · rw [List.cons_append, backupGo_cons_noflush cfg fetch day (rest ++ q) b f a hfd hT,
          backupGo_cons_noflush cfg fetch day rest b f a hfd hT]
        simp only [ih q (dictInsert day a b) f, List.append_assoc]

theorem backup_pos (cfg : Config) (fetch : Day → Nat → Option JSON) (days : List Day)
    (f0 : List String) (h : 0 < (backupGo cfg fetch days [] f0).batch.length) :
    backup cfg fetch days f0 =
      ⟨(append_to_json_file (backupGo cfg fetch days [] f0).batch
          (backupGo cfg fetch days [] f0).file).1,
       (backupGo cfg fetch days [] f0).flushes ++ [(backupGo cfg fetch days [] f0).batch],
       (backupGo cfg fetch days [] f0).events ++
         (append_to_json_file (backupGo cfg fetch days [] f0).batch
            (backupGo cfg fetch days [] f0).file).2⟩ := by
  simp [backup, h]

theorem backup_zero (cfg : Config) (fetch : Day → Nat → Option JSON) (days : List Day)
    (f0 : List String) (h : ¬ 0 < (backupGo cfg fetch days [] f0).batch.length) :
    backup cfg fetch days f0 =
      ⟨(backupGo cfg fetch days [] f0).file, (backupGo cfg fetch days [] f0).flushes,
       (backupGo cfg fetch days [] f0).events⟩ := by
  simp [backup, h]

theorem backup_flushes_flatten (cfg : Config) (fetch : Day → Nat → Option JSON)
    (days : List Day) (f0 : List String) :
    (backup cfg fetch days f0).flushes.flatten
      = (backupGo cfg fetch days [] f0).flushes.flatten
        ++ (backupGo cfg fetch days [] f0).batch := by
  by_cases h : 0 < (backupGo cfg fetch days [] f0).batch.length
  · rw [backup_pos cfg fetch days f0 h]
    simp
  · have hb : (backupGo cfg fetch days [] f0).batch = [] :=
      List.length_eq_zero.mp (by omega)
    rw [backup_zero cfg fetch days f0 h, hb]
    simp

theorem backup_file_eq (cfg : Config) (fetch : Day → Nat → Option JSON)
    (days : List Day) (f0 : List String) :
    (backup cfg fetch days f0).file
      = f0 ++ ((backup cfg fetch days f0).flushes.flatten).map serializeEntry := by
  by_cases h : 0 < (backupGo cfg fetch days [] f0).batch.length
  · rw [backup_flushes_flatten cfg fetch days f0, backup_pos cfg fetch days f0 h]
    simp only [append_to_json_file, backupGo_file cfg fetch days [] f0, List.map_append,
      List.append_assoc]
  · have hb : (backupGo cfg fetch days [] f0).batch = [] :=
      List.length_eq_zero.mp (by omega)
    rw [backup_flushes_flatten cfg fetch days f0, backup_zero cfg fetch days f0 h, hb]
    simpa using backupGo_file cfg fetch days [] f0

theorem backup_flatten_successes (cfg : Config) (fetch : Day → Nat → Option JSON)
    (days : List Day) (f0 : List String) (hnd : days.Nodup) :
    (backup cfg fetch days f0).flushes.flatten = successes cfg fetch days := by
  rw [backup_flushes_flatten cfg fetch days f0]
  simpa using backupGo_flatten cfg fetch days [] f0 hnd (fun d _ => by simp [keys])

theorem mem_successes (cfg : Config) (fetch : Day → Nat → Option JSON)
    (days : List Day) (p : Day × JSON) (h : p ∈ successes cfg fetch days) :
    p.1 ∈ days ∧ (backup_date cfg (fetch p.1) p.1).1 = some p.2 := by
  simp only [successes, List.mem_filterMap, Option.map_eq_some'] at h
  obtain ⟨d, hd, a, ha, rfl⟩ := h
  exact ⟨hd, ha⟩

theorem keys_successes (cfg : Config) (fetch : Day → Nat → Option JSON) :
    ∀ days : List Day, keys (successes cfg fetch days)
      = days.filter (fun d => ((backup_date cfg (fetch d) d).1).isSome) := by
  intro days
  induction days with
  | nil => rfl
  | cons day rest ih =>
    cases hfd : (backup_date cfg (fetch day) day).1 with
    | none =>
      rw [successes_cons_none cfg fetch day rest hfd, List.filter_cons]
      simp [hfd, ih]
    | some a =>
      rw [successes_cons_some cfg fetch day rest a hfd, keys_cons, List.filter_cons]
      simp [hfd, ih]

theorem successes_count_one (cfg : Config) (fetch : Day → Nat → Option JSON) :
    ∀ days : List Day, days.Nodup → ∀ (d : Day) (a : JSON), d ∈ days →
      (backup_date cfg (fetch d) d).1 = some a →
      (successes cfg fetch days).count (d, a) = 1 := by
  intro days
  induction days with
  | nil => intro _ d a h; exact absurd h (List.not_mem_nil d)
  | cons day rest ih =>
    intro hnd d a hmem hsome
    have hndr : rest.Nodup := (List.nodup_cons.mp hnd).2
    have hdayr : day ∉ rest := (List.nodup_cons.mp hnd).1
    rcases List.mem_cons.mp hmem with rfl | hmem'
    · rw [successes_cons_some cfg fetch d rest a hsome, List.count_cons_self]
      have hz : (successes cfg fetch rest).count (d, a) = 0 := by
        rw [List.count_eq_zero]
        intro hc
        exact hdayr (mem_successes cfg fetch rest (d, a) hc).1
      rw [hz]
    · have hne : day ≠ d := by rintro rfl; exact hdayr hmem'
      cases hfd : (backup_date cfg (fetch day) day).1 with
      | none =>
        rw [successes_cons_none cfg fetch day rest hfd]
        exact ih hndr d a hmem' hsome
      | some b =>
        rw [successes_cons_some cfg fetch day rest b hfd, List.count_cons_of_ne
          (by simp [Prod.ext_iff]; intro h; exact absurd h.symm hne), ih hndr d a hmem' hsome]

theorem backup_date_firstAttempt (cfg : Config) (fetch : Nat → Option JSON)
    (day x : Day) :
    (backup_date cfg fetch day).2.countP (isFirstAttemptFor x)
      = if day = x ∧ 1 ≤ cfg.RETRIES then 1 else 0 := by
  unfold backup_date
  rw [backupDateGo_firstAttempt]
  simp

theorem append_events_firstAttempt (b : List (Day × JSON)) (f : List String) (x : Day) :
    (append_to_json_file b f).2.countP (isFirstAttemptFor x) = 0 := by
  simp only [append_to_json_file, List.countP_cons, List.countP_append, List.countP_map]
  rw [List.countP_eq_zero.mpr (by intro e he; simp [Function.comp, isFirstAttemptFor])]
  simp [isFirstAttemptFor]

theorem backupGo_firstAttempt_count (cfg : Config) (fetch : Day → Nat → Option JSON)
    (x : Day) (hR : 1 ≤ cfg.RETRIES) :
    ∀ (days : List Day) (b : List (Day × JSON)) (f : List String),
      (backupGo cfg fetch days b f).events.countP (isFirstAttemptFor x)
        = days.count x := by
  intro days
  induction days with
  | nil => intro b f; simp [backupGo_nil]
  | cons day rest ih =>
    intro b f
    have hday : (backup_date cfg (fetch day) day).2.countP (isFirstAttemptFor x)
        = if day = x then 1 else 0 := by
      rw [backup_date_firstAttempt]
      simp [hR]
    have hcount : (day :: rest).count x = rest.count x + if day = x then 1 else 0 := by
      rw [List.count_cons]
      by_cases h : day = x <;> simp [h]
    cases hfd : (backup_date cfg (fetch day) day).1 with
    | none =>
      rw [backupGo_cons_none cfg fetch day rest b f hfd]
      simp only [List.countP_append, hday, ih b f, hcount]
      omega
    | some a =>
      by_cases hT : cfg.BATCH_APPEND ≤ (dictInsert day a b).length
      · rw [backupGo_cons_flush cfg fetch day rest b f a hfd hT]
        simp only [List.countP_append, hday, append_events_firstAttempt,
          ih [] (append_to_json_file (dictInsert day a b) f).1, hcount]
        omega
      · rw [backupGo_cons_noflush cfg fetch day rest b f a hfd hT]
        simp only [List.countP_append, hday, ih (dictInsert day a b) f, hcount]
        omega

theorem backup_firstAttempt_count (cfg : Config) (fetch : Day → Nat → Option JSON)
    (x : Day) (hR : 1 ≤ cfg.RETRIES) (days : List Day) (f0 : List String) :
    (backup cfg fetch days f0).events.countP (isFirstAttemptFor x) = days.count x := by
  by_cases h : 0 < (backupGo cfg fetch days [] f0).batch.length
  · rw [backup_pos cfg fetch days f0 h]
    simp only [List.countP_append, append_events_firstAttempt,
      backupGo_firstAttempt_count cfg fetch x hR days [] f0]
    omega
  · rw [backup_zero cfg fetch days f0 h]
    exact backupGo_firstAttempt_count cfg fetch x hR days [] f0

theorem backupGo_single_flush_clears (cfg : Config) (fetch : Day → Nat → Option JSON)
    (d : Day) (b : List (Day × JSON)) (f : List String)
    (h : (backupGo cfg fetch [d] b f).flushes ≠ []) :
    (backupGo cfg fetch [d] b f).batch = [] := by
  cases hfd : (backup_date cfg (fetch d) d).1 with
  | none =>
    rw [backupGo_cons_none cfg fetch d [] b f hfd] at h
    simp [backupGo_nil] at h
  | some a =>
    by_cases hT : cfg.BATCH_APPEND ≤ (dictInsert d a b).length
    · rw [backupGo_cons_flush cfg fetch d [] b f a hfd hT]
      simp [backupGo_nil]
    · rw [backupGo_cons_noflush cfg fetch d [] b f a hfd hT] at h
      simp [backupGo_nil] at h

theorem backupGo_nofill (cfg : Config) (fetch : Day → Nat → Option JSON) (v : Day → JSON) :
    ∀ (days : List Day) (b : List (Day × JSON)) (f : List String),
      (∀ d ∈ days, (backup_date cfg (fetch d) d).1 = some (v d)) →
      days.Nodup → (∀ d ∈ days, d ∉ keys b) →
      b.length + days.length < cfg.BATCH_APPEND →
      (backupGo cfg fetch days b f).batch = b ++ days.map (fun d => (d, v d))
        ∧ (backupGo cfg fetch days b f).file = f
        ∧ (backupGo cfg fetch days b f).flushes = [] := by
  intro days
  induction days with
  | nil => intro b f _ _ _ _; simp [backupGo_nil]
  | cons day rest ih =>
    intro b f hv hnd hdisj hlen
    have hfd : (backup_date cfg (fetch day) day).1 = some (v day) :=
      hv day (List.mem_cons_self _ _)
    have hins : dictInsert day (v day) b = b ++ [(day, v day)] :=
      dictInsert_append day (v day) b (hdisj day (List.mem_cons_self _ _))
    have hlen' : (dictInsert day (v day) b).length = b.length + 1 := by simp [hins]
    have hT : ¬ cfg.BATCH_APPEND ≤ (dictInsert day (v day) b).length := by
      simp only [List.length_cons] at hlen
      omega
    rw [backupGo_cons_noflush cfg fetch day rest b f (v day) hfd hT]
    have hdisj' : ∀ d ∈ rest, d ∉ keys (dictInsert day (v day) b) := by
      intro d hd
      rw [hins, keys_append, keys_cons, keys_nil]
      simp only [List.mem_append, List.mem_singleton, not_or]
      refine ⟨hdisj d (List.mem_cons_of_mem _ hd), ?_⟩
      rintro rfl
      exact (List.nodup_cons.mp hnd).1 hd
    obtain ⟨h1, h2, h3⟩ := ih (dictInsert day (v day) b) f
      (fun d hd => hv d (List.mem_cons_of_mem _ hd)) (List.nodup_cons.mp hnd).2 hdisj'
      (by simp only [List.length_cons] at hlen; omega)
    dsimp only
    rw [h1, h2, h3, hins]
    simp

theorem backupGo_fill (cfg : Config) (fetch : Day → Nat → Option JSON) (v : Day → JSON) :
    ∀ (d1 d2 : List Day) (b : List (Day × JSON)) (f : List String),
      (∀ d ∈ d1, (backup_date cfg (fetch d) d).1 = some (v d)) →
      d1.Nodup → (∀ d ∈ d1, d ∉ keys b) →
      b.length < cfg.BATCH_APPEND →
      b.length + d1.length = cfg.BATCH_APPEND →
      (backupGo cfg fetch (d1 ++ d2) b f).batch
          = (backupGo cfg fetch d2 []
              (f ++ (b ++ d1.map (fun d => (d, v d))).map serializeEntry)).batch
        ∧ (backupGo cfg fetch (d1 ++ d2) b f).file
          = (backupGo cfg fetch d2 []
              (f ++ (b ++ d1.map (fun d => (d, v d))).map serializeEntry)).file
        ∧ (backupGo cfg fetch (d1 ++ d2) b f).flushes
          = (b ++ d1.map (fun d => (d, v d)))
            :: (backupGo cfg fetch d2 []
                 (f ++ (b ++ d1.map (fun d => (d, v d))).map serializeEntry)).flushes := by
  intro d1
  induction d1 with
  | nil => intro d2 b f _ _ _ hlt heq; simp only [List.length_nil] at heq; omega
  | cons day rest ih =>
    intro d2 b f hv hnd hdisj hlt heq
    have hfd : (backup_date cfg (fetch day) day).1 = some (v day) :=
      hv day (List.mem_cons_self _ _)
    have hins : dictInsert day (v day) b = b ++ [(day, v day)] :=
      dictInsert_append day (v day) b (hdisj day (List.mem_cons_self _ _))
    have hlen' : (dictInsert day (v day) b).length = b.length + 1 := by simp [hins]
    by_cases hT : cfg.BATCH_APPEND ≤ (dictInsert day (v day) b).length
    · have hrest : rest = [] := by
        apply List.length_eq_zero.mp
        simp only [List.length_cons] at heq
        omega
      subst hrest
      rw [List.cons_append, List.nil_append,
        backupGo_cons_flush cfg fetch day d2 b f (v day) hfd hT]
      dsimp only
      simp [append_to_json_file, hins]
    · rw [List.cons_append, backupGo_cons_noflush cfg fetch day (rest ++ d2) b f (v day) hfd hT]
      have hdisj' : ∀ d ∈ rest, d ∉ keys (dictInsert day (v day) b) := by
        intro d hd
        rw [hins, keys_append, keys_cons, keys_nil]
        simp only [List.mem_append, List.mem_singleton, not_or]
        refine ⟨hdisj d (List.mem_cons_of_mem _ hd), ?_⟩
        rintro rfl
        exact (List.nodup_cons.mp hnd).1 hd
      have := ih d2 (dictInsert day (v day) b) f
        (fun d hd => hv d (List.mem_cons_of_mem _ hd)) (List.nodup_cons.mp hnd).2 hdisj'
        (by omega) (by simp only [List.length_cons] at heq; omega)
      rw [this.1, this.2.1, this.2.2, hins]
      simp

/-! ### Lemmas about the date range -/

theorem dates_length (s e : Int) : (dates s e).length = (e - s).toNat := by
  unfold dates
  rw [List.length_map, List.length_range]

theorem dates_get (s e : Int) (i : Nat) (h : i < (e - s).toNat) :
    (dates s e)[i]? = some (s + i) := by
  unfold dates
  rw [List.getElem?_map, List.getElem?_range h]
  rfl

theorem dates_nodup (s e : Int) : (dates s e).Nodup := by
  unfold dates
  apply List.Nodup.map_on ?_ (List.nodup_range _)
  intro a _ b _ hab
  simp only [add_right_inj, Nat.cast_inj] at hab
  exact hab

theorem dates_getLast (s e : Int) (h : s < e) :
    (dates s e).getLast? = some (e - 1) := by
  rw [List.getLast?_eq_getElem?, dates_length]
  have hi : (e - s).toNat - 1 < (e - s).toNat := by omega
  unfold dates
  rw [List.getElem?_map, List.getElem?_range hi, Option.map_some']
  have : s + (((e - s).toNat - 1 : Nat) : Int) = e - 1 := by omega
  rw [this]

theorem mem_dates (s e d : Int) : d ∈ dates s e ↔ s ≤ d ∧ d < e := by
  unfold dates
  simp only [List.mem_map, List.mem_range]
  constructor
  · rintro ⟨a, ha, rfl⟩
    omega
  · intro h
    exact ⟨(d - s).toNat, by omega, by omega⟩

theorem dates_append (s m e : Int) (h1 : s ≤ m) (h2 : m ≤ e) :
    dates s e = dates s m ++ dates m e := by
  unfold dates
  have hsplit : (e - s).toNat = (m - s).toNat + (e - m).toNat := by omega
  rw [hsplit, List.range_add, List.map_append]
  congr 1
  rw [List.map_map]
  apply List.map_congr_left
  intro a _
  show s + (((m - s).toNat + a : Nat) : Int) = m + (a : Int)
  omega

/-! ### The claims -/

/-- C7: flushing an empty batch is a no-op: `append_to_json_file` on an empty
batch writes no line to the output file (in particular no empty line), and its
only side effects are opening and closing the file. -/
theorem claim_C7 (file : List String) :
    (append_to_json_file [] file).1 = file ∧
    (append_to_json_file [] file).2 = [Event.openFile, Event.closeFile] := by
  constructor <;> simp [append_to_json_file]

/-- C8: running `backup` on the empty date range arising when the start date
equals the end date performs zero flushes and never touches the output file:
the file is unchanged, no flush is recorded, and no event (not even a file
open, which is what would create the file) occurs. -/
theorem claim_C8 (cfg : Config) (fetch : Day → Nat → Option JSON) (s : Day)
    (file0 : List String) :
    dates s s = [] ∧ backup cfg fetch (dates s s) file0 = ⟨file0, [], []⟩ := by
  have h : dates s s = [] := by
    unfold dates
    simp
  refine ⟨h, ?_⟩
  rw [h, backup_zero cfg fetch [] file0 (by simp [backupGo_nil])]
  simp [backupGo_nil]

/-- C9: the default date range enumerates calendar days at one-day granularity
from the association date `s` (inclusive) up to but excluding the current date
`e`: it has `(e - s)` days, its `i`-th element is `s + i`, its last element is
`e - 1` (yesterday) when `s < e`, and it is empty when `s = e`. -/
theorem claim_C9 (s e : Int) :
    (dates s e).length = (e - s).toNat ∧
    (∀ i : Nat, i < (e - s).toNat → (dates s e)[i]? = some (s + i)) ∧
    (s < e → (dates s e).getLast? = some (e - 1)) ∧
    (s = e → dates s e = []) := by
  refine ⟨dates_length s e, fun i hi => dates_get s e i hi, dates_getLast s e, ?_⟩
  rintro rfl
  unfold dates
  simp

/-- Witness for C9 at `s = 2`, `e = 5`. -/
theorem claim_C9_witness :
    (dates 2 5).length = (5 - 2 : Int).toNat ∧ (dates 2 5)[1]? = some 3 ∧
    (dates 2 5).getLast? = some 4 ∧ dates 7 7 = [] :=
  ⟨(claim_C9 2 5).1, by
    have := (claim_C9 2 5).2.1 1 (by decide)
    simpa using this,
   by
    have := (claim_C9 2 5).2.2.1 (by decide)
    simpa using this,
   (claim_C9 7 7).2.2.2 rfl⟩

/-- C10: when every one of the `RETRIES` attempts for a day raises,
`backup_date` performs exactly `RETRIES` backoff sleeps with durations
`BACKOFF*1, ..., BACKOFF*RETRIES` — including a final sleep of
`BACKOFF*RETRIES` seconds after the last failed attempt, even though no
further retry follows: the trace ends with that sleep immediately followed by
the failure log line — and returns `None`. -/
theorem claim_C10 (cfg : Config) (fetch : Nat → Option JSON) (day : Day)
    (hf : ∀ k, fetch k = none) (hR : 1 ≤ cfg.RETRIES) :
    (backup_date cfg fetch day).1 = none ∧
    sleepsOf (backup_date cfg fetch day).2
      = (List.range cfg.RETRIES).map (fun i => cfg.BACKOFF * (i + 1)) ∧
    ∃ pre, (backup_date cfg fetch day).2
      = pre ++ [Event.sleep (cfg.BACKOFF * cfg.RETRIES), Event.logFailure day] := by
  have hgo := backupDateGo_all_fail fetch day cfg.BACKOFF hf cfg.RETRIES 0
  unfold backup_date
  rw [hgo]
  refine ⟨rfl, ?_, ?_⟩
  · rw [sleepsOf_failTrace]
    exact List.map_congr_left (fun i _ => by ring)
  · obtain ⟨pre, hpre⟩ := failTrace_tail day cfg.BACKOFF cfg.RETRIES 0 hR
    refine ⟨pre, ?_⟩
    rw [hpre]
    norm_num

/-- Witness for C10: two retries with backoff unit 3, every attempt failing. -/
theorem claim_C10_witness :
    (backup_date ⟨2, 3, 15⟩ (fun _ => none) 0).1 = none ∧
    sleepsOf (backup_date ⟨2, 3, 15⟩ (fun _ => none) 0).2
      = (List.range 2).map (fun i => 3 * (i + 1)) ∧
    ∃ pre, (backup_date ⟨2, 3, 15⟩ (fun _ => none) 0).2
      = pre ++ [Event.sleep (3 * 2), Event.logFailure 0] :=
  claim_C10 ⟨2, 3, 15⟩ (fun _ => none) 0 (fun _ => rfl) (by decide)

/-- C4: the day fetcher makes at most `RETRIES` API attempts for any day; when
every attempt raises it returns `None` (not a fatal error) with the failure
log line as its last event, and the driver proceeds to the next day: the run
over `day :: rest` produces the same file and the same flushes as the run over
`rest` alone, and no record for the failed day appears in any flushed batch. -/
theorem claim_C4 (cfg : Config) (fetchAll : Day → Nat → Option JSON) (day : Day)
    (rest : List Day) (file0 : List String) (hnd : (day :: rest).Nodup) :
    ((backup_date cfg (fetchAll day) day).2.countP isAttempt ≤ cfg.RETRIES) ∧
    ((∀ k, fetchAll day k = none) →
      (backup_date cfg (fetchAll day) day).1 = none ∧
      (backup_date cfg (fetchAll day) day).2.getLast? = some (Event.logFailure day) ∧
      (backup cfg fetchAll (day :: rest) file0).file
        = (backup cfg fetchAll rest file0).file ∧
      (backup cfg fetchAll (day :: rest) file0).flushes
        = (backup cfg fetchAll rest file0).flushes ∧
      day ∉ keys ((backup cfg fetchAll (day :: rest) file0).flushes.flatten)) := by
  constructor
  · exact backupDateGo_attempts_le (fetchAll day) day cfg.BACKOFF cfg.RETRIES 0
  · intro hf
    have hgo := backupDateGo_all_fail (fetchAll day) day cfg.BACKOFF hf cfg.RETRIES 0
    have hnone : (backup_date cfg (fetchAll day) day).1 = none := by
      unfold backup_date
      rw [hgo]
    have hlast : (backup_date cfg (fetchAll day) day).2.getLast?
        = some (Event.logFailure day) := by
      unfold backup_date
      rw [hgo]
      exact failTrace_getLast day cfg.BACKOFF cfg.RETRIES 0
    have hstep := backupGo_cons_none cfg fetchAll day rest [] file0 hnone
    have hb : (backupGo cfg fetchAll (day :: rest) [] file0).batch
        = (backupGo cfg fetchAll rest [] file0).batch := by rw [hstep]
    have hfi : (backupGo cfg fetchAll (day :: rest) [] file0).file
        = (backupGo cfg fetchAll rest [] file0).file := by rw [hstep]
    have hfl : (backupGo cfg fetchAll (day :: rest) [] file0).flushes
        = (backupGo cfg fetchAll rest [] file0).flushes := by rw [hstep]
    have hrun : (backup cfg fetchAll (day :: rest) file0).file
          = (backup cfg fetchAll rest file0).file
        ∧ (backup cfg fetchAll (day :: rest) file0).flushes
          = (backup cfg fetchAll rest file0).flushes := by
      by_cases h : 0 < (backupGo cfg fetchAll rest [] file0).batch.length
      · rw [backup_pos cfg fetchAll (day :: rest) file0 (by rw [hb]; exact h),
          backup_pos cfg fetchAll rest file0 h, hb, hfi, hfl]
        exact ⟨rfl, rfl⟩
      · rw [backup_zero cfg fetchAll (day :: rest) file0 (by rw [hb]; exact h),
          backup_zero cfg fetchAll rest file0 h, hfi, hfl]
        exact ⟨rfl, rfl⟩
    refine ⟨hnone, hlast, hrun.1, hrun.2, ?_⟩
    rw [backup_flatten_successes cfg fetchAll (day :: rest) file0 hnd,
      keys_successes cfg fetchAll (day :: rest)]
    intro hmem
    have := List.mem_filter.mp hmem
    rcases List.mem_cons.mp this.1 with h | h
    · have hfalse := this.2
      rw [← h] at hfalse
      rw [hnone] at hfalse
      simp at hfalse
    · exact (List.nodup_cons.mp hnd).1 h

/-- Witness for C4: retry maximum 2, a first day whose attempts all fail,
followed by one more day. -/
theorem claim_C4_witness :
    ((backup_date ⟨2, 1, 15⟩ ((fun (_ : Day) (_ : Nat) => (none : Option JSON)) 0) 0).2.countP
        isAttempt ≤ 2) ∧
    (backup_date ⟨2, 1, 15⟩ ((fun (_ : Day) (_ : Nat) => (none : Option JSON)) 0) 0).1 = none ∧
    (backup ⟨2, 1, 15⟩ (fun _ _ => none) [0, 1] []).file
      = (backup ⟨2, 1, 15⟩ (fun _ _ => none) [1] []).file := by
  have h := claim_C4 ⟨2, 1, 15⟩ (fun _ _ => none) 0 [1] [] (by decide)
  have h2 := h.2 (fun _ => rfl)
  exact ⟨h.1, h2.1, h2.2.2.1⟩

/-- C3: the delay slept after a failed attempt is `BACKOFF * attempt_number`
seconds — linear in the attempt count (the `i`-th sleep of any `backup_date`
run, 0-indexed, lasts `BACKOFF * (i+1)` seconds).  In the scenario where a
day's fetch fails on attempts 1–9 and succeeds on attempt 10 with retry
maximum 10, `backup_date` returns the day's payload, exactly 9 backoff sleeps
occur with durations `BACKOFF*1, ..., BACKOFF*9`, and a run over that single
day writes the day's record to the file exactly once. -/
theorem claim_C3 (cfg : Config) (fetchAll : Day → Nat → Option JSON) (day : Day)
    (v : JSON) (file0 : List String) (hR : cfg.RETRIES = 10)
    (hf : ∀ k, k < 9 → fetchAll day k = none) (hs9 : fetchAll day 9 = some v) :
    (∀ (fetch2 : Nat → Option JSON) (i d : Nat),
      (sleepsOf (backup_date cfg fetch2 day).2)[i]? = some d
        → d = cfg.BACKOFF * (i + 1)) ∧
    (backup_date cfg (fetchAll day) day).1 = some v ∧
    sleepsOf (backup_date cfg (fetchAll day) day).2
      = (List.range 9).map (fun i => cfg.BACKOFF * (i + 1)) ∧
    (backup cfg fetchAll [day] file0).file = file0 ++ [serializeEntry (day, v)] := by
  have h0 := hf 0 (by omega)
  have h1 := hf 1 (by omega)
  have h2 := hf 2 (by omega)
  have h3 := hf 3 (by omega)
  have h4 := hf 4 (by omega)
  have h5 := hf 5 (by omega)
  have h6 := hf 6 (by omega)
  have h7 := hf 7 (by omega)
  have h8 := hf 8 (by omega)
  have hsome : (backup_date cfg (fetchAll day) day).1 = some v := by
    unfold backup_date
    rw [hR]
    simp [backupDateGo, h0, h1, h2, h3, h4, h5, h6, h7, h8, hs9]
  refine ⟨?_, hsome, ?_, ?_⟩
  · intro fetch2 i d hd
    obtain ⟨k, _, hsl⟩ := backupDateGo_sleeps_linear fetch2 day cfg.BACKOFF cfg.RETRIES 0
    unfold backup_date at hd
    rw [hsl, List.getElem?_map] at hd
    by_cases hik : i < k
    · rw [List.getElem?_range hik] at hd
      simp only [Option.map_some', Option.some_inj] at hd
      rw [← hd]
      ring
    · rw [List.getElem?_eq_none (by simpa using by omega)] at hd
      simp at hd
  · unfold backup_date
    rw [hR]
    simp [backupDateGo, h0, h1, h2, h3, h4, h5, h6, h7, h8, hs9, sleepsOf,
      List.range_succ]
  · rw [backup_file_eq, backup_flatten_successes cfg fetchAll [day] file0 (by simp),
      successes_cons_some cfg fetchAll day [] v hsome, successes_nil]
    rfl

/-- Witness for C3: the notebook configuration, a fetch oracle failing on
attempt indices 0–8 and succeeding on index 9. -/
theorem claim_C3_witness :
    (backup_date ⟨10, 2, 15⟩
      ((fun (_ : Day) (k : Nat) => if k = 9 then some "P" else none) 0) 0).1 = some "P" ∧
    sleepsOf (backup_date ⟨10, 2, 15⟩
      ((fun (_ : Day) (k : Nat) => if k = 9 then some "P" else none) 0) 0).2
      = (List.range 9).map (fun i => 2 * (i + 1)) ∧
    (backup ⟨10, 2, 15⟩ (fun _ k => if k = 9 then some "P" else none) [0] []).file
      = [] ++ [serializeEntry (0, "P")] := by
  have h := claim_C3 ⟨10, 2, 15⟩ (fun _ k => if k = 9 then some "P" else none) 0 "P" []
    rfl (fun k hk => by simp [show k ≠ 9 by omega]) (by simp)
  exact ⟨h.2.1, h.2.2.1, h.2.2.2⟩

/-- C1: over a date-range list of distinct days, every day in the range is
passed to the day fetcher exactly once (exactly one first-attempt API call per
day occurs in the trace), each day is written to the output file at most once,
the file consists of the untouched prior contents followed by whole serialized
records of the flushed batches (never a partial record), and a day whose fetch
returns `None` (exhausted retries) is omitted from the file entirely. -/
theorem claim_C1 (cfg : Config) (fetch : Day → Nat → Option JSON) (days : List Day)
    (file0 : List String) (hnd : days.Nodup) (hR : 1 ≤ cfg.RETRIES) :
    (∀ d ∈ days, (backup cfg fetch days file0).events.countP (isFirstAttemptFor d) = 1) ∧
    (∀ d : Day, (keys ((backup cfg fetch days file0).flushes.flatten)).count d ≤ 1) ∧
    ((backup cfg fetch days file0).file
      = file0 ++ ((backup cfg fetch days file0).flushes.flatten).map serializeEntry) ∧
    (∀ d ∈ days, (backup_date cfg (fetch d) d).1 = none
      → d ∉ keys ((backup cfg fetch days file0).flushes.flatten)) := by
  refine ⟨?_, ?_, backup_file_eq cfg fetch days file0, ?_⟩
  · intro d hd
    rw [backup_firstAttempt_count cfg fetch d hR days file0]
    exact List.count_eq_one_of_mem hnd hd
  · intro d
    rw [backup_flatten_successes cfg fetch days file0 hnd, keys_successes]
    exact le_trans ((List.filter_sublist days).count_le d)
      (List.nodup_iff_count_le_one.mp hnd d)
  · intro d hd hnone
    rw [backup_flatten_successes cfg fetch days file0 hnd, keys_successes]
    intro hmem
    have hsome := (List.mem_filter.mp hmem).2
    rw [hnone] at hsome
    simp at hsome

/-- Witness for C1: two distinct days, the first succeeding, the second
always failing. -/
theorem claim_C1_witness :
    ((backup ⟨1, 0, 2⟩ (fun d _ => if d = 0 then some "A" else none) [0, 1] []).events.countP
        (isFirstAttemptFor 0) = 1) ∧
    ((keys ((backup ⟨1, 0, 2⟩ (fun d _ => if d = 0 then some "A" else none)
        [0, 1] []).flushes.flatten)).count 0 ≤ 1) ∧
    (1 : Day) ∉ keys ((backup ⟨1, 0, 2⟩ (fun d _ => if d = 0 then some "A" else none)
        [0, 1] []).flushes.flatten) := by
  have h := claim_C1 ⟨1, 0, 2⟩ (fun d _ => if d = 0 then some "A" else none) [0, 1] []
    (by decide) (by decide)
  exact ⟨h.1 0 (by decide), h.2.1 0, h.2.2.2 1 (by decide) (by decide)⟩

/-- C2: during a run over distinct days, between flushes the in-memory batch
always holds strictly fewer than `BATCH_APPEND` entries (so never more than
the threshold); every mid-run flush happens exactly when the batch reaches the
threshold (each flushed batch has exactly `BATCH_APPEND` entries); batch
entries are appended to the file as one serialized record per entry in the
batches' iteration order; and the batch is empty immediately after any day
whose processing triggered a flush. -/
theorem claim_C2 (cfg : Config) (fetch : Day → Nat → Option JSON) (days : List Day)
    (file0 : List String) (hnd : days.Nodup) (hT : 1 ≤ cfg.BATCH_APPEND) :
    (∀ p q : List Day, days = p ++ q →
      (backupGo cfg fetch p [] file0).batch.length < cfg.BATCH_APPEND) ∧
    (∀ fl ∈ (backupGo cfg fetch days [] file0).flushes, fl.length = cfg.BATCH_APPEND) ∧
    ((backup cfg fetch days file0).file
      = file0 ++ ((backup cfg fetch days file0).flushes.flatten).map serializeEntry) ∧
    (∀ (p : List Day) (d : Day) (q : List Day), days = p ++ d :: q →
      (backupGo cfg fetch (p ++ [d]) [] file0).flushes.length
        ≠ (backupGo cfg fetch p [] file0).flushes.length →
      (backupGo cfg fetch (p ++ [d]) [] file0).batch = []) := by
  refine ⟨?_, ?_, backup_file_eq cfg fetch days file0, ?_⟩
  · intro p q hpq
    have hp : p.Nodup := by
      subst hpq
      exact hnd.of_append_left
    exact (backupGo_batch_bound cfg fetch p [] file0 hp (fun d _ => by simp [keys])
      (by simp only [List.length_nil]; omega)).1
  · exact (backupGo_batch_bound cfg fetch days [] file0 hnd (fun d _ => by simp [keys])
      (by simp only [List.length_nil]; omega)).2
  · intro p d q hpq hflush
    rw [backupGo_append cfg fetch p [d] [] file0] at hflush ⊢
    dsimp only at hflush ⊢
    refine backupGo_single_flush_clears cfg fetch d _ _ ?_
    intro hnil
    rw [hnil] at hflush
    simp at hflush

/-- Witness for C2: threshold 1, a single successful day, whose processing
flushes at once. -/
theorem claim_C2_witness :
    ((backupGo ⟨1, 0, 1⟩ (fun _ _ => some "A") [5] [] []).batch.length < 1) ∧
    ([((5 : Day), ("A" : JSON))].length = 1) ∧
    ((backup ⟨1, 0, 1⟩ (fun _ _ => some "A") [5] []).file
      = [] ++ ((backup ⟨1, 0, 1⟩ (fun _ _ => some "A") [5] []).flushes.flatten).map
          serializeEntry) ∧
    ((backupGo ⟨1, 0, 1⟩ (fun _ _ => some "A") ([] ++ [5]) [] []).batch = []) := by
  have h := claim_C2 ⟨1, 0, 1⟩ (fun _ _ => some "A") [5] [] (by decide) (by decide)
  exact ⟨h.1 [5] [] rfl, h.2.1 [(5, "A")] (by decide), h.2.2.1,
    h.2.2.2 [] 5 [] rfl (by decide)⟩

/-- C6: over distinct days, the output file is the prior contents followed by
exactly the records of the successfully fetched days in range order: each
successful day contributes exactly one record, serialized as the JSON object
with its ISO-8601 day and raw payload followed by one newline; for an
ascending range the records' days are ascending; and the file of any prefix of
the run is a prefix of the final file (the file is only appended to, never
truncated or rewritten). -/
theorem claim_C6 (cfg : Config) (fetch : Day → Nat → Option JSON) (days : List Day)
    (file0 : List String) (hnd : days.Nodup) :
    ((backup cfg fetch days file0).file
      = file0 ++ (successes cfg fetch days).map serializeEntry) ∧
    (∀ (d : Day) (a : JSON), d ∈ days → (backup_date cfg (fetch d) d).1 = some a →
      (successes cfg fetch days).count (d, a) = 1
        ∧ serializeEntry (d, a) = dumps_record (isoformat d) a ++ "\n") ∧
    (days.Pairwise (· < ·) → (keys (successes cfg fetch days)).Pairwise (· < ·)) ∧
    (∀ p q : List Day, days = p ++ q →
      ∃ t, (backupGo cfg fetch p [] file0).file ++ t
        = (backup cfg fetch days file0).file) := by
  refine ⟨?_, ?_, ?_, ?_⟩
  · rw [backup_file_eq, backup_flatten_successes cfg fetch days file0 hnd]
  · intro d a hd ha
    exact ⟨successes_count_one cfg fetch days hnd d a hd ha, rfl⟩
  · intro hsorted
    rw [keys_successes]
    exact List.Pairwise.filter _ hsorted
  · intro p q hpq
    subst hpq
    refine ⟨((backupGo cfg fetch q (backupGo cfg fetch p [] file0).batch
        (backupGo cfg fetch p [] file0).file).flushes.flatten
      ++ (backupGo cfg fetch q (backupGo cfg fetch p [] file0).batch
        (backupGo cfg fetch p [] file0).file).batch).map serializeEntry, ?_⟩
    rw [backup_file_eq cfg fetch (p ++ q) file0,
      backup_flushes_flatten cfg fetch (p ++ q) file0,
      backupGo_append cfg fetch p q [] file0]
    dsimp only
    rw [backupGo_file cfg fetch p [] file0]
    simp [List.flatten_append]

/-- Witness for C6: two ascending days, both fetched successfully. -/
theorem claim_C6_witness :
    ((backup ⟨1, 0, 15⟩ (fun _ _ => some "A") [3, 4] []).file
      = [] ++ (successes ⟨1, 0, 15⟩ (fun _ _ => some "A") [3, 4]).map serializeEntry) ∧
    ((successes ⟨1, 0, 15⟩ (fun _ _ => some "A") [3, 4]).count (3, "A") = 1) ∧
    ((keys (successes ⟨1, 0, 15⟩ (fun _ _ => some "A") [3, 4])).Pairwise (· < ·)) ∧
    (∃ t, (backupGo ⟨1, 0, 15⟩ (fun _ _ => some "A") [3] [] []).file ++ t
      = (backup ⟨1, 0, 15⟩ (fun _ _ => some "A") [3, 4] []).file) := by
  have h := claim_C6 ⟨1, 0, 15⟩ (fun _ _ => some "A") [3, 4] [] (by decide)
  exact ⟨h.1, (h.2.1 3 "A" (by decide) rfl).1, h.2.2.1 (by decide),
    h.2.2.2 [3] [4] rfl⟩

/-- C5: for a date range of 20 consecutive days on which every fetch succeeds
(first attempt), with flush threshold 15, `backup` writes a file of exactly 20
record lines through exactly two flush operations — the first flushing 15
records and the second, the final partial flush at the end of the run,
flushing the remaining 5 — and the file consists precisely of the 20 days'
serialized records in order. -/
theorem claim_C5 (cfg : Config) (fetch : Day → Nat → Option JSON) (v : Day → JSON)
    (s : Day) (hT : cfg.BATCH_APPEND = 15) (hR : 1 ≤ cfg.RETRIES)
    (hs : ∀ d ∈ dates s (s + 20), fetch d 0 = some (v d)) :
    (backup cfg fetch (dates s (s + 20)) []).file.length = 20 ∧
    (backup cfg fetch (dates s (s + 20)) []).flushes.map List.length = [15, 5] ∧
    (backup cfg fetch (dates s (s + 20)) []).file
      = ((dates s (s + 20)).map (fun d => (d, v d))).map serializeEntry := by
  have hv : ∀ d ∈ dates s (s + 20), (backup_date cfg (fetch d) d).1 = some (v d) := by
    intro d hd
    rw [backup_date_success0 cfg (fetch d) d (v d) hR (hs d hd)]
  have hsplit : dates s (s + 20) = dates s (s + 15) ++ dates (s + 15) (s + 20) :=
    dates_append s (s + 15) (s + 20) (by omega) (by omega)
  have hlen1 : (dates s (s + 15)).length = 15 := by rw [dates_length]; omega
  have hlen2 : (dates (s + 15) (s + 20)).length = 5 := by rw [dates_length]; omega
  have hsub1 : ∀ d ∈ dates s (s + 15), (backup_date cfg (fetch d) d).1 = some (v d) := by
    intro d hd
    apply hv
    rw [mem_dates] at hd ⊢
    omega
  have hsub2 : ∀ d ∈ dates (s + 15) (s + 20),
      (backup_date cfg (fetch d) d).1 = some (v d) := by
    intro d hd
    apply hv
    rw [mem_dates] at hd ⊢
    omega
  obtain ⟨hb1, hf1, hfl1⟩ := backupGo_fill cfg fetch v (dates s (s + 15))
    (dates (s + 15) (s + 20)) [] [] hsub1 (dates_nodup _ _) (fun d _ => by simp [keys])
    (by simp only [List.length_nil]; omega) (by simp only [List.length_nil, hlen1]; omega)
  obtain ⟨gb2, gf2, gfl2⟩ := backupGo_nofill cfg fetch v (dates (s + 15) (s + 20)) []
    (([] : List String)
      ++ (([] ++ (dates s (s + 15)).map (fun d => (d, v d))).map serializeEntry))
    hsub2 (dates_nodup _ _) (fun d _ => by simp [keys])
    (by simp only [List.length_nil, hlen2]; omega)
  have hgb : (backupGo cfg fetch (dates s (s + 20)) [] []).batch
      = (dates (s + 15) (s + 20)).map (fun d => (d, v d)) := by
    rw [hsplit, hb1, gb2]
    simp
  have hgf : (backupGo cfg fetch (dates s (s + 20)) [] []).file
      = ((dates s (s + 15)).map (fun d => (d, v d))).map serializeEntry := by
    rw [hsplit, hf1, gf2]
    simp
  have hgfl : (backupGo cfg fetch (dates s (s + 20)) [] []).flushes
      = [(dates s (s + 15)).map (fun d => (d, v d))] := by
    rw [hsplit, hfl1, gfl2]
    simp
  have hpos : 0 < (backupGo cfg fetch (dates s (s + 20)) [] []).batch.length := by
    rw [hgb]
    simp [hlen2]
  rw [backup_pos cfg fetch (dates s (s + 20)) [] hpos]
  dsimp only
  rw [hgb, hgf, hgfl]
  simp only [append_to_json_file]
  refine ⟨?_, ?_, ?_⟩
  · simp [hlen1, hlen2]
  · simp [hlen1, hlen2]
  · rw [hsplit]
    simp

/-- Witness for C5: the notebook configuration, start day 0, every fetch
returning payload `"P"` at its first attempt. -/
theorem claim_C5_witness :
    (backup notebookConfig (fun _ _ => some "P") (dates 0 (0 + 20)) []).file.length = 20 ∧
    (backup notebookConfig (fun _ _ => some "P") (dates 0 (0 + 20)) []).flushes.map
        List.length = [15, 5] :=
  have h := claim_C5 notebookConfig (fun _ _ => some "P") (fun _ => "P") 0 rfl
    (by decide) (fun d _ => rfl)
  ⟨h.1, h.2.1⟩
